import Mathlib

/-!
Shallow embedding of `platform_settings.py` (plugin `PlatformSettings`):
the `Version` parser/renderer, the `OsInfo` os-release resolution, and the
`PlatformSettingsEventListener.check_settings` reconciliation routine.

Host strings are modelled as `List Char`; the host settings store as an
association list; the stateful Python methods as explicit state-passing
functions.  Raised exceptions are modelled as explicit error values.
-/

namespace PlatformSettings

/-- Strings (settings keys, identifiers, rendered text) are lists of characters. -/
abbrev SKey := List Char

/-- The character `.` used by the version renderer and parser. -/
def dotChar : Char := Char.ofNat 46

/-- The character `-`, the alternative label separator in the version regex. -/
def dashChar : Char := Char.ofNat 45

/-- The character `=` separating keys from values in os-release lines. -/
def eqChar : Char := Char.ofNat 61

/-- The double-quote character recognised by `quote_rx`. -/
def dquoteChar : Char := Char.ofNat 34

/-- The single-quote character recognised by `quote_rx`. -/
def squoteChar : Char := Char.ofNat 39

/-- The underscore character, a word character for the regex class `\w`. -/
def usChar : Char := Char.ofNat 95

/-- Decimal rendering of a natural number, digit list built most significant
first; the fuel argument bounds the number of digits (Python `str(int)`). -/
def natToStrAux : Nat → Nat → List Char → List Char
  | 0, _, acc => acc
  | fuel + 1, n, acc =>
    let d : Char := Char.ofNat (48 + n % 10)
    if n < 10 then d :: acc else natToStrAux fuel (n / 10) (d :: acc)

/-- Decimal rendering of a natural number (Python `str` applied to an `int`). -/
def natToStr (n : Nat) : List Char := natToStrAux (n + 1) n []

/-- A `Version` object: the fields `_major`, `_minor`, `_patch` are integers or
`None`; `_label` is a string or `None`.  `Version()` leaves all fields `None`. -/
structure Version where
  major : Option Nat
  minor : Option Nat
  patch : Option Nat
  label : Option SKey
deriving DecidableEq, Repr

/-- The bare constructor call `Version()`: every component is `None`. -/
def Version.empty : Version := ⟨none, none, none, none⟩

/-- The dedicated version-format error (`VersionError`), carrying the
offending input text (`"unrecognized version: ..."`). -/
inductive VersionError where
  | unrecognized (text : SKey) : VersionError
deriving DecidableEq, Repr

/-- Truthiness of the `_label` field (`if self._label:`): a label prints only
when it is present and non-empty. -/
def labelTruthy : Option SKey → Bool
  | none => false
  | some l => l ≠ []

/-- The `full` property of `Version` (lines 37-48): write the major component
when present and positive, then the minor, patch and label components, each
only while all the previous ones were written, each prefixed with a dot. -/
def Version.full (v : Version) : SKey :=
  match v.major with
  | none => []
  | some M =>
    if 0 < M then
      natToStr M ++
        (match v.minor with
         | none => []
         | some m =>
           if 0 < m then
             dotChar :: natToStr m ++
               (match v.patch with
                | none => []
                | some p =>
                  if 0 < p then
                    dotChar :: natToStr p ++
                      (match v.label with
                       | none => []
                       | some l => if l ≠ [] then dotChar :: l else [])
                  else [])
           else [])
    else []

/-- Word characters for the regex class `\w` (ASCII: letters, digits, `_`). -/
def isWordChar (c : Char) : Bool := c.isAlphanum || c = usChar

/-- Numeric value of a run of decimal digits (Python `int` on the group). -/
def digitsToNat (ds : List Char) : Nat :=
  ds.foldl (fun a c => 10 * a + (c.toNat - 48)) 0

/-- The fields captured by a successful match of `__version_rx`
(`(?P<major>\d+)(\.(?P<minor>\d+))?(\.(?P<patch>\d+))?([.-]?(?P<label>\w+))?`),
after `get_int` has replaced a missing numeric group with 0. -/
structure VFields where
  major : Nat
  minor : Nat
  patch : Nat
  label : Option SKey
deriving DecidableEq, Repr

/-- Matching of one optional group `(\.(?P<n>\d+))?` at the current position:
a dot followed by at least one digit yields the digit run, anything else
leaves the position unchanged. -/
def optDotNum (l : List Char) : Option Nat × List Char :=
  match l with
  | [] => (none, [])
  | c :: rest =>
    if c = dotChar then
      let ds := rest.takeWhile Char.isDigit
      if ds = [] then (none, c :: rest)
      else (some (digitsToNat ds), rest.dropWhile Char.isDigit)
    else (none, c :: rest)

/-- Matching of the optional label group `([.-]?(?P<label>\w+))?`: an optional
`.` or `-` separator followed by a non-empty word-character run; with the
separator consumed but no word character following, the group backtracks and
fails (neither `.` nor `-` is a word character). -/
def optLabel (l : List Char) : Option SKey :=
  match l with
  | [] => none
  | c :: rest =>
    if c = dotChar ∨ c = dashChar then
      let w := rest.takeWhile isWordChar
      if w = [] then none else some w
    else
      let w := (c :: rest).takeWhile isWordChar
      if w = [] then none else some w

/-- Group extraction of `__version_rx` from the match start `s` (whose first
character is a digit): the major group greedily takes the maximal digit run,
then the two optional dotted numeric groups, then the optional label group;
missing numeric groups become 0 through `get_int`. -/
def versionFields (s : List Char) : VFields :=
  let maj := s.takeWhile Char.isDigit
  let d1 := optDotNum (s.dropWhile Char.isDigit)
  let d2 := optDotNum d1.2
  ⟨digitsToNat maj, d1.1.getD 0, d2.1.getD 0, optLabel d2.2⟩

/-- `__version_rx.search(text)`: the pattern starts with the mandatory `\d+`,
so the search succeeds exactly at the first digit of `text` and extracts the
groups from there.  Returns `none` when `text` has no digit at all. -/
def versionSearch (text : List Char) : Option VFields :=
  match text.dropWhile (fun c => !c.isDigit) with
  | [] => none
  | c :: rest => some (versionFields (c :: rest))

/-- The `_parse` method (lines 66-78) as a state transformer: on a match all
four component fields are assigned from the group dictionary; on a failed
search a `VersionError` is raised and the fields keep their previous values. -/
def versionParseMut (v : Version) (text : List Char) :
    Version × Option VersionError :=
  match versionSearch text with
  | some f => (⟨some f.major, some f.minor, some f.patch, f.label⟩, none)
  | none => (v, some (VersionError.unrecognized text))

/-- Rendering of a freshly parsed version string: `Version(text=s).full`,
or `none` when parsing raises. -/
def renderParsed (s : List Char) : Option SKey :=
  match versionSearch s with
  | some f => some (Version.full ⟨some f.major, some f.minor, some f.patch, f.label⟩)
  | none => none

example : renderParsed "1.0.3".data = some "1".data := by decide

example : renderParsed "2.0.5".data = some "2".data := by decide

example : renderParsed "2.3.0".data = some "2.3".data := by decide

example : renderParsed "2.3.4.beta".data = some "2.3.4.beta".data := by decide

example : versionSearch "abc1.2".data = some ⟨1, 2, 0, none⟩ := by decide

example : versionSearch "20.04".data = some ⟨20, 4, 0, none⟩ := by decide

example : versionSearch "1..2".data = some ⟨1, 0, 0, none⟩ := by decide

example : versionSearch "1.beta".data = some ⟨1, 0, 0, some "beta".data⟩ := by
  decide

example : versionSearch "1-rc1".data = some ⟨1, 0, 0, some "rc1".data⟩ := by
  decide

example : versionSearch "1.2x".data = some ⟨1, 2, 0, some "x".data⟩ := by decide

example : versionSearch "1_rc".data = some ⟨1, 0, 0, some "_rc".data⟩ := by
  decide

example : versionSearch "ab12cd34".data = some ⟨12, 0, 0, some "cd34".data⟩ := by
  decide

example : versionSearch "3.4.5.6".data = some ⟨3, 4, 5, some "6".data⟩ := by
  decide

example : versionSearch "001".data = some ⟨1, 0, 0, none⟩ := by decide

example : versionParseMut Version.empty "abc".data =
    (Version.empty, some (VersionError.unrecognized "abc".data)) := by decide

/-- Key characters for `value_rx` (`[A-Z0-9_]`): uppercase ASCII letters,
decimal digits, underscore. -/
def isKeyChar (c : Char) : Bool :=
  (Char.ofNat 65 ≤ c ∧ c ≤ Char.ofNat 90) || c.isDigit || c = usChar

/-- Python `str.strip()`: whitespace removed from both ends. -/
def stripBoth (l : List Char) : List Char :=
  ((l.dropWhile Char.isWhitespace).reverse.dropWhile Char.isWhitespace).reverse

/-- `quote_rx` (`^(["\x27])(.*)\1$`) applied to a value: when the value starts
and ends with the same single or double quote (and has length at least two),
the quotes are stripped. -/
def stripQuotes (v : List Char) : List Char :=
  match v with
  | [] => []
  | c :: rest =>
    if (c = dquoteChar ∨ c = squoteChar) ∧ rest ≠ [] ∧ rest.getLast? = some c then
      rest.dropLast
    else c :: rest

/-- Matching of one os-release line against
`value_rx = ^\s*(?P<key>[A-Z0-9_]+)\s*=\s*(?P<value>.*)$` followed by the
`strip` and quote-stripping of the value (lines 177-184).  Lines are modelled
without their trailing newline; a line that does not match is skipped. -/
def parseLine (line : List Char) : Option (SKey × SKey) :=
  let l1 := line.dropWhile Char.isWhitespace
  let key := l1.takeWhile isKeyChar
  let r := l1.dropWhile isKeyChar
  if key = [] then none
  else
    match r.dropWhile Char.isWhitespace with
    | [] => none
    | c :: rest =>
      if c = eqChar then some (key, stripQuotes (stripBoth rest)) else none

example : parseLine "ID=ubuntu".data = some ("ID".data, "ubuntu".data) := by
  decide

example :
    parseLine "  ID_LIKE = debian  ".data = some ("ID_LIKE".data, "debian".data) := by
  decide

example : parseLine "id=x".data = none := by decide

example : parseLine "A=B=C".data = some ("A".data, "B=C".data) := by decide

example : parseLine "ID=".data = some ("ID".data, []) := by decide

example :
    parseLine ("VERSION_ID=".data ++ [squoteChar] ++ "7".data ++ [squoteChar]) =
      some ("VERSION_ID".data, "7".data) := by decide

example : parseLine ("Y=".data ++ [dquoteChar]) =
    some ("Y".data, [dquoteChar]) := by decide

example : parseLine ("W=  ".data ++ [dquoteChar] ++ "sp aced ".data ++
    [dquoteChar] ++ "  ".data) = some ("W".data, "sp aced ".data) := by decide

/-- Python dictionary lookup `d.get(k)` on an association list whose entries
were inserted with `dictSet`: the first matching entry. -/
def dictGet {α : Type} : List (SKey × α) → SKey → Option α
  | [], _ => none
  | (k, v) :: rest, q => if q = k then some v else dictGet rest q

/-- Python dictionary assignment `d[k] = v`: an existing key keeps its
position and gets the new value, a new key is appended (insertion order). -/
def dictSet {α : Type} : List (SKey × α) → SKey → α → List (SKey × α)
  | [], k, v => [(k, v)]
  | (k0, v0) :: rest, k, v =>
    if k0 = k then (k0, v) :: rest else (k0, v0) :: dictSet rest k v

/-- The `os_release_data` dictionary built by the line loop of
`_parse_os_release` (lines 176-184): matching lines assign key to value,
later lines overwriting earlier ones. -/
def buildOsReleaseData (lines : List (List Char)) : List (SKey × SKey) :=
  lines.foldl
    (fun d line =>
      match parseLine line with
      | some (k, v) => dictSet d k v
      | none => d)
    []

/-- Resolution of the distribution identifier (lines 186-188): take the `ID`
value; when it is absent or exactly `generic`, take the `ID_LIKE` value. -/
def resolveId (d : List (SKey × SKey)) : Option SKey :=
  let i := dictGet d "ID".data
  if i = none ∨ i = some "generic".data then dictGet d "ID_LIKE".data else i

/-- The host-identity snapshot `OsInfo`.  The constructor fills `arch`,
`bits`, `typ`, `family` and `subsys` from host platform introspection
(external inputs), sets `id` to `"unknown"` and `version` to `Version()`;
on non-Windows, non-macOS hosts it then runs `_parse_os_release`, which is
the only part the spec claims constrain and is modelled below. -/
structure OsInfo where
  arch : SKey
  bits : Nat
  typ : SKey
  family : SKey
  id : Option SKey
  subsys : SKey
  version : Version
deriving DecidableEq, Repr

/-- The `_parse_os_release` method (lines 169-194) as a state transformer.
The file argument is `none` when opening or reading `/etc/os-release` raises
`OSError` (the `except OSError: pass` absorbs it, leaving every field as it
was), otherwise the list of its lines.  On success the identifier is
resolved, and when a non-empty `VERSION_ID` value is present the version is
re-parsed; a `VersionError` raised by that parse propagates (second
component) with the identifier already reassigned. -/
def parseOsRelease (info : OsInfo) (file : Option (List (List Char))) :
    OsInfo × Option VersionError :=
  match file with
  | none => (info, none)
  | some lines =>
    let d := buildOsReleaseData lines
    let info1 : OsInfo := { info with id := resolveId d }
    match dictGet d "VERSION_ID".data with
    | none => (info1, none)
    | some v =>
      if v ≠ [] then
        match versionSearch v with
        | some f =>
          ({ info1 with version := ⟨some f.major, some f.minor, some f.patch, f.label⟩ },
            none)
        | none => (info1, some (VersionError.unrecognized v))
      else (info1, none)

/-- A sample prior snapshot used by the concrete os-release examples. -/
def sampleInfo : OsInfo :=
  ⟨"x86_64".data, 64, "linux".data, "debian".data, some "unknown".data,
    "none".data, Version.empty⟩

example :
    parseOsRelease sampleInfo (some ["ID=generic".data, "ID_LIKE=debian".data]) =
      ({ sampleInfo with id := some "debian".data }, none) := by decide

example :
    parseOsRelease sampleInfo
        (some ["ID=ubuntu".data,
          "VERSION_ID=".data ++ [dquoteChar] ++ "20.04".data ++ [dquoteChar]]) =
      ({ sampleInfo with
          id := some "ubuntu".data,
          version := ⟨some 20, some 4, some 0, none⟩ }, none) := by decide

example : Version.full ⟨some 20, some 4, some 0, none⟩ = "20.4".data := by decide

mutual

/-- A value held by the host settings store (JSON-like, as Sublime stores).
Lists and dictionaries carry their elements through the companion types
`SValList` and `SValDict`. -/
inductive SVal where
  | null : SVal
  | bool : Bool → SVal
  | int : Int → SVal
  | str : SKey → SVal
  | list : SValList → SVal
  | dict : SValDict → SVal

/-- The elements of a list-valued setting, in order. -/
inductive SValList where
  | nil : SValList
  | cons : SVal → SValList → SValList

/-- The entries of a dictionary-valued setting, in insertion order. -/
inductive SValDict where
  | nil : SValDict
  | cons : SKey → SVal → SValDict → SValDict

end

mutual

/-- Structural equality of setting values, mirroring the Python `!=`
comparison of `check_settings` on JSON-like values. -/
def svalEq : SVal → SVal → Bool
  | SVal.null, SVal.null => true
  | SVal.bool x, SVal.bool y => x = y
  | SVal.int x, SVal.int y => x = y
  | SVal.str x, SVal.str y => x = y
  | SVal.list xs, SVal.list ys => svalListEq xs ys
  | SVal.dict xs, SVal.dict ys => svalDictEq xs ys
  | _, _ => false

/-- Elementwise equality of list-valued settings. -/
def svalListEq : SValList → SValList → Bool
  | SValList.nil, SValList.nil => true
  | SValList.cons x xs, SValList.cons y ys => svalEq x y && svalListEq xs ys
  | _, _ => false

/-- Entrywise equality of dictionary-valued settings. -/
def svalDictEq : SValDict → SValDict → Bool
  | SValDict.nil, SValDict.nil => true
  | SValDict.cons k v xs, SValDict.cons k2 v2 ys =>
    k = k2 && svalEq v v2 && svalDictEq xs ys
  | _, _ => false

end

/-- The entries of a dictionary value as an association list. -/
def SValDict.toList : SValDict → List (SKey × SVal)
  | SValDict.nil => []
  | SValDict.cons k v rest => (k, v) :: SValDict.toList rest

/-- The elements of a list value as a list. -/
def SValList.toList : SValList → List SVal
  | SValList.nil => []
  | SValList.cons x rest => x :: SValList.toList rest

/-- Python truthiness of a setting value (`if not keys`, `or {}`,
`not s.get(..., False)`): `None`, `False`, `0`, and empty strings, lists and
dictionaries are falsy. -/
def svalTruthy : SVal → Bool
  | SVal.null => false
  | SVal.bool b => b
  | SVal.int n => n ≠ 0
  | SVal.str s => s ≠ []
  | SVal.list SValList.nil => false
  | SVal.list (SValList.cons _ _) => true
  | SVal.dict SValDict.nil => false
  | SVal.dict (SValDict.cons _ _ _) => true

example :
    svalEq (SVal.dict (SValDict.cons ['x'] (SVal.int 1) SValDict.nil))
      (SVal.dict (SValDict.cons ['x'] (SVal.int 1) SValDict.nil)) = true := by decide

example :
    svalEq (SVal.dict (SValDict.cons ['x'] (SVal.int 1) SValDict.nil))
      (SVal.dict (SValDict.cons ['x'] (SVal.int 2) SValDict.nil)) = false := by decide

/-- The per-view settings store exposed by the host: keys to values. -/
abbrev Store := List (SKey × SVal)

/-- The name under which the change listener is registered
(`"platform_settings"`). -/
def psName : SKey := "platform_settings".data

/-- The sentinel setting written at the end of every run
(`"platform_settings_was_here"`). -/
def wasHereKey : SKey := "platform_settings_was_here".data

/-- The setting holding the configurable key-template list
(`"platform_settings_keys"`). -/
def keysSettingKey : SKey := "platform_settings_keys".data

/-- The placeholder `${platform}`. -/
def platPat : SKey := "$\x7bplatform\x7d".data

/-- The placeholder `${hostname}`. -/
def hostPat : SKey := "$\x7bhostname\x7d".data

/-- The placeholder `${os_subsys}`. -/
def subsysPat : SKey := "$\x7bos_subsys\x7d".data

/-- The hard-coded `default_keys` list of `check_settings` (lines 202-208). -/
def defaultKeys : List SKey :=
  ["user_".data ++ platPat,
    platPat,
    platPat ++ "_".data ++ hostPat,
    hostPat ++ "_".data ++ subsysPat,
    hostPat]

/-- Python `s.replace(pat, rep)` for a non-empty pattern: all non-overlapping
occurrences are replaced left to right.  The fuel argument (the length of the
string) only makes the recursion structural; each step consumes at least one
character, so the fuel never runs out. -/
def listReplaceFuel (pat rep : List Char) : Nat → List Char → List Char
  | 0, s => s
  | _ + 1, [] => []
  | fuel + 1, c :: rest =>
    if pat ≠ [] ∧ pat.isPrefixOf (c :: rest) then
      rep ++ listReplaceFuel pat rep fuel ((c :: rest).drop pat.length)
    else c :: listReplaceFuel pat rep fuel rest

/-- Python `s.replace(pat, rep)` (the patterns used are the non-empty
placeholder literals). -/
def listReplace (s pat rep : List Char) : List Char :=
  listReplaceFuel pat rep s.length s

/-- The ambient identity values substituted into key templates:
`sublime.platform()`, the lowercased first label of `socket.gethostname()`,
and `os_info.subsys` (all external inputs of the run). -/
structure Ctx where
  platform : SKey
  hostname : SKey
  osSubsys : SKey

/-- Placeholder substitution for one key template (lines 222-224): platform,
then hostname, then os-subsystem, in that order. -/
def substKey (ctx : Ctx) (k : SKey) : SKey :=
  listReplace (listReplace (listReplace k platPat ctx.platform) hostPat ctx.hostname)
    subsysPat ctx.osSubsys

/-- The expression `s.get(key, \x7b\x7d) or \x7b\x7d` of the merge loop
(line 225): an absent key or a falsy stored value (`None`, `False`, `0`,
empty containers) contributes the empty dictionary; a stored dictionary
contributes its entries.  A truthy non-dictionary value would make the
Python `dict.update` raise and is outside the modelled domain. -/
def getDict (st : Store) (k : SKey) : List (SKey × SVal) :=
  match dictGet st k with
  | none => []
  | some v =>
    if svalTruthy v then
      match v with
      | SVal.dict d => d.toList
      | _ => []
    else []

/-- Python `dict.update`: entries of `e` assigned into `d` in order. -/
def dictUpdate (d : List (SKey × SVal)) (e : List (SKey × SVal)) :
    List (SKey × SVal) :=
  e.foldl (fun acc kv => dictSet acc kv.1 kv.2) d

/-- The accumulator dictionary `platform_settings` built by the merge loop
(lines 220-225) over an ordered list of concrete keys: start empty, update
with each key's stored dictionary in list order. -/
def mergeKeys (st : Store) (ks : List SKey) : List (SKey × SVal) :=
  ks.foldl (fun acc k => dictUpdate acc (getDict st k)) []

/-- The key-template list of a run (lines 209-211): the stored
`platform_settings_keys` value when it is a truthy list, the hard-coded
defaults when it is absent or falsy.  A truthy non-list value is outside the
documented schema (the Python would iterate or crash on it) and is modelled
by the defaults. -/
def settingsKeys (st : Store) : List SKey :=
  match dictGet st keysSettingKey with
  | none => defaultKeys
  | some v =>
    if svalTruthy v then
      match v with
      | SVal.list l =>
        l.toList.map (fun e => match e with | SVal.str s => s | _ => [])
      | _ => defaultKeys
    else defaultKeys

/-- The final merged dictionary of a run: templates fetched, substituted and
merged in order. -/
def mergedOf (ctx : Ctx) (st : Store) : List (SKey × SVal) :=
  mergeKeys st ((settingsKeys st).map (substKey ctx))

/-- The first-run flag after line 216: the `first` argument, or else the
falsity of the stored `platform_settings_was_here` value (default `False`). -/
def computeFirst (st : Store) (first : Bool) : Bool :=
  if first then true
  else !svalTruthy ((dictGet st wasHereKey).getD (SVal.bool false))

/-- A change listener attached to the view's settings.  The only listener this
component attaches is the lambda of line 236, which calls
`sublime.set_timeout(on_change, delay)` with `delay = 0`, i.e. schedules
`check_settings(view)` on a later event-loop turn through the host's
deferred-callback facility. -/
inductive Listener where
  | deferCheckSettings : Nat → Listener
deriving DecidableEq, Repr

/-- An observable store mutation performed by a run: `clear_on_change`,
`set`, or `add_on_change`. -/
inductive Ev where
  | clearListener : SKey → Ev
  | write : SKey → SVal → Ev
  | addListener : SKey → Listener → Ev

/-- Discriminator for write events. -/
def isWriteEv : Ev → Bool
  | Ev.write _ _ => true
  | _ => false

/-- Discriminator for listener-attach events. -/
def isAddEv : Ev → Bool
  | Ev.addListener _ _ => true
  | _ => false

/-- Detaching a named listener (`clear_on_change`). -/
def clearL (ls : List (SKey × Listener)) (n : SKey) : List (SKey × Listener) :=
  ls.filter (fun p => !(p.1 = n : Bool))

/-- Whether a listener is attached under the given name. -/
def hasListener (ls : List (SKey × Listener)) (n : SKey) : Bool :=
  (dictGet ls n).isSome

/-- The view state a run acts on: the settings data and the attached change
listeners. -/
structure SettingsState where
  data : Store
  listeners : List (SKey × Listener)

/-- One iteration of the write loop (lines 228-231): read the current live
value of the merged key (default `None`) and write the merged value only
when the two differ. -/
def writeStep (acc : Store × List Ev) (kv : SKey × SVal) : Store × List Ev :=
  if svalEq ((dictGet acc.1 kv.1).getD SVal.null) kv.2 then acc
  else (dictSet acc.1 kv.1 kv.2, acc.2 ++ [Ev.write kv.1 kv.2])

/-- The write loop of `check_settings` (lines 227-231) over the entries of
the merged dictionary in order. -/
def writePass (st : Store) (merged : List (SKey × SVal)) : Store × List Ev :=
  merged.foldl writeStep (st, [])

/-- The `check_settings` method (lines 200-236) as a state transformer that
also records the trace of store mutations: compute the first-run flag,
detach the own change listener when not a first run, merge the stored
dictionaries of the substituted keys in order, write the differing merged
values, write the sentinel, and attach the deferring change listener. -/
def checkSettings (ctx : Ctx) (st : SettingsState) (first : Bool) :
    SettingsState × List Ev :=
  let first1 := computeFirst st.data first
  let ls1 := if !first1 then clearL st.listeners psName else st.listeners
  let evs1 : List Ev := if !first1 then [Ev.clearListener psName] else []
  let wp := writePass st.data (mergedOf ctx st.data)
  (⟨dictSet wp.1 wasHereKey (SVal.bool true),
      dictSet ls1 psName (Listener.deferCheckSettings 0)⟩,
    evs1 ++ wp.2 ++
      [Ev.write wasHereKey (SVal.bool true),
        Ev.addListener psName (Listener.deferCheckSettings 0)])

/-- Effect of one recorded event on the attached listeners. -/
def applyEv (ls : List (SKey × Listener)) : Ev → List (SKey × Listener)
  | Ev.clearListener n => clearL ls n
  | Ev.write _ _ => ls
  | Ev.addListener n l => dictSet ls n l

/-- Listener state reached by replaying a trace. -/
def replayL (ls : List (SKey × Listener)) (evs : List Ev) :
    List (SKey × Listener) :=
  evs.foldl applyEv ls

/-- Reentrancy safety of a trace: at the moment of every write event, no
listener is attached under `platform_settings`, so no write can synchronously
re-invoke reconciliation through the component's own listener. -/
def writesSafe (ls : List (SKey × Listener)) : List Ev → Bool
  | [] => true
  | e :: rest =>
    (match e with
     | Ev.write _ _ => !hasListener ls psName
     | _ => true) && writesSafe (applyEv ls e) rest

/-- A sample identity context used in concrete examples. -/
def sampleCtx : Ctx := ⟨"linux".data, "myhost".data, "none".data⟩

example : (settingsKeys []).map (substKey sampleCtx) =
    ["user_linux".data, "linux".data, "linux_myhost".data,
      "myhost_none".data, "myhost".data] := by decide

/-- A sample store: dictionaries under two applicable concrete keys. -/
def sampleStore : Store :=
  [("linux".data,
      SVal.dict (SValDict.cons "x".data (SVal.int 1)
        (SValDict.cons "y".data (SVal.int 2) SValDict.nil))),
    ("linux_myhost".data,
      SVal.dict (SValDict.cons "x".data (SVal.int 3) SValDict.nil))]

example : mergedOf sampleCtx sampleStore =
    [("x".data, SVal.int 3), ("y".data, SVal.int 2)] := by rfl

example :
    (checkSettings sampleCtx ⟨sampleStore, []⟩ true).2 =
      [Ev.write "x".data (SVal.int 3), Ev.write "y".data (SVal.int 2),
        Ev.write wasHereKey (SVal.bool true),
        Ev.addListener psName (Listener.deferCheckSettings 0)] := by rfl

/-- The value the entries of `e` leave assigned to `q` when applied in order:
the last matching entry wins (Python dictionary assignment). -/
def lastGet : List (SKey × SVal) → SKey → Option SVal
  | [], _ => none
  | kv :: rest, q =>
    match lastGet rest q with
    | some w => some w
    | none => if kv.1 = q then some kv.2 else none

/-- The intended merged value of setting `q` for an ordered key list: the
value given by the last key (in list order) whose stored dictionary defines
`q`, and no value when no key defines it. -/
def mergeLast (st : Store) : List SKey → SKey → Option SVal
  | [], _ => none
  | k :: ks, q =>
    match mergeLast st ks q with
    | some v => some v
    | none => lastGet (getDict st k) q

theorem dictGet_dictSet {α : Type} (d : List (SKey × α)) (k : SKey) (v : α)
    (q : SKey) :
    dictGet (dictSet d k v) q = if q = k then some v else dictGet d q := by
  induction d with
  | nil => simp [dictSet, dictGet]
  | cons kv rest ih =>
    obtain ⟨k0, v0⟩ := kv
    by_cases h : k0 = k
    · subst h
      by_cases hq : q = k0 <;> simp [dictSet, dictGet, hq]
    · by_cases hq : q = k0
      · subst hq
        simp [dictSet, dictGet, h]
      · simp [dictSet, dictGet, h, hq, ih]

theorem dictGet_dictUpdate (d e : List (SKey × SVal)) (q : SKey) :
    dictGet (dictUpdate d e) q =
      match lastGet e q with
      | some w => some w
      | none => dictGet d q := by
  induction e generalizing d with
  | nil => simp [dictUpdate, lastGet]
  | cons kv rest ih =>
    show dictGet (dictUpdate (dictSet d kv.1 kv.2) rest) q = _
    rw [ih]
    cases h : lastGet rest q with
    | some w => simp [lastGet, h]
    | none =>
      simp only [lastGet, h, dictGet_dictSet]
      by_cases hq : q = kv.1
      · simp [hq]
      · rw [if_neg hq, if_neg (fun hc => hq hc.symm)]

theorem dictGet_mergeKeys_aux (st : Store) (ks : List SKey)
    (d : List (SKey × SVal)) (q : SKey) :
    dictGet (ks.foldl (fun acc k => dictUpdate acc (getDict st k)) d) q =
      match mergeLast st ks q with
      | some v => some v
      | none => dictGet d q := by
  induction ks generalizing d with
  | nil => simp [mergeLast]
  | cons k ks ih =>
    rw [List.foldl_cons, ih]
    cases h : mergeLast st ks q with
    | some v => simp [mergeLast, h]
    | none => simp [mergeLast, h, dictGet_dictUpdate]

theorem dictGet_mergeKeys (st : Store) (ks : List SKey) (q : SKey) :
    dictGet (mergeKeys st ks) q = mergeLast st ks q := by
  rw [mergeKeys, dictGet_mergeKeys_aux]
  cases mergeLast st ks q with
  | some v => rfl
  | none => rfl

/-- C1.  The reconciliation merge processes the concrete keys in list order:
for every setting name the merged dictionary holds the value given by the
last key whose stored dictionary defines it; an absent or `None` stored
value contributes the empty dictionary; and in the concrete two-key example,
an earlier key giving x to 1 and y to 2 and a later key giving x to 3 merge
to x to 3 and y to 2. -/
theorem C1_merge_order :
    (∀ (st : Store) (ks : List SKey) (q : SKey),
        dictGet (mergeKeys st ks) q = mergeLast st ks q)
    ∧ (∀ (st : Store) (k : SKey), dictGet st k = none → getDict st k = [])
    ∧ (∀ (st : Store) (k : SKey), dictGet st k = some SVal.null → getDict st k = [])
    ∧ mergedOf sampleCtx sampleStore =
        [("x".data, SVal.int 3), ("y".data, SVal.int 2)]
    ∧ dictGet (mergedOf sampleCtx sampleStore) "x".data = some (SVal.int 3)
    ∧ dictGet (mergedOf sampleCtx sampleStore) "y".data = some (SVal.int 2) := by
  refine ⟨dictGet_mergeKeys, ?_, ?_, by rfl, by rfl, by rfl⟩
  · intro st k h
    simp [getDict, h]
  · intro st k h
    simp [getDict, h, svalTruthy]

/-- C1, witnessed.  A store with no entry for the key contributes the empty
dictionary to the merge. -/
theorem C1_merge_order_witness : getDict [] "a".data = [] :=
  C1_merge_order.2.1 [] "a".data rfl

/-- The keys of an association list, in order. -/
def keysOf {α : Type} (d : List (SKey × α)) : List SKey := d.map Prod.fst

theorem keysOf_dictSet {α : Type} (d : List (SKey × α)) (k : SKey) (v : α) :
    keysOf (dictSet d k v) =
      if k ∈ keysOf d then keysOf d else keysOf d ++ [k] := by
  induction d with
  | nil => simp [dictSet, keysOf]
  | cons kv rest ih =>
    obtain ⟨k0, v0⟩ := kv
    by_cases h : k0 = k
    · rw [show dictSet ((k0, v0) :: rest) k v = (k0, v) :: rest from by
        simp [dictSet, h]]
      rw [if_pos (show k ∈ keysOf ((k0, v0) :: rest) from by
        rw [show keysOf ((k0, v0) :: rest) = k0 :: List.map Prod.fst rest from rfl,
          h]
        exact List.mem_cons_self k (List.map Prod.fst rest))]
      rfl
    · have hne : ¬k = k0 := fun hc => h hc.symm
      simp only [dictSet, if_neg h, keysOf, List.map_cons] at *
      rw [ih]
      by_cases hm : k ∈ List.map Prod.fst rest
      · simp [hm, hne]
      · simp [hm, hne]

theorem nodup_keysOf_dictSet {α : Type} (d : List (SKey × α)) (k : SKey)
    (v : α) (h : (keysOf d).Nodup) : (keysOf (dictSet d k v)).Nodup := by
  rw [keysOf_dictSet]
  by_cases hm : k ∈ keysOf d
  · simpa [hm] using h
  · simp only [if_neg hm]
    refine List.Nodup.append h (List.nodup_singleton k) ?_
    intro a ha hak
    rw [List.mem_singleton] at hak
    exact hm (hak ▸ ha)

theorem nodup_keysOf_dictUpdate (d e : List (SKey × SVal))
    (h : (keysOf d).Nodup) : (keysOf (dictUpdate d e)).Nodup := by
  induction e generalizing d with
  | nil => simpa [dictUpdate] using h
  | cons kv rest ih =>
    show (keysOf (dictUpdate (dictSet d kv.1 kv.2) rest)).Nodup
    exact ih _ (nodup_keysOf_dictSet d kv.1 kv.2 h)

theorem nodup_keysOf_mergeKeys_aux (st : Store) (ks : List SKey)
    (d : List (SKey × SVal)) (h : (keysOf d).Nodup) :
    (keysOf (ks.foldl (fun acc k => dictUpdate acc (getDict st k)) d)).Nodup := by
  induction ks generalizing d with
  | nil => simpa using h
  | cons k ks ih =>
    rw [List.foldl_cons]
    exact ih _ (nodup_keysOf_dictUpdate d (getDict st k) h)

theorem nodup_keysOf_mergeKeys (st : Store) (ks : List SKey) :
    (keysOf (mergeKeys st ks)).Nodup :=
  nodup_keysOf_mergeKeys_aux st ks [] (by simp [keysOf])

theorem writePass_skip_aux (merged : List (SKey × SVal)) (st : Store)
    (evs : List Ev)
    (h : ∀ kv ∈ merged, svalEq ((dictGet st kv.1).getD SVal.null) kv.2 = true) :
    merged.foldl writeStep (st, evs) = (st, evs) := by
  induction merged with
  | nil => rfl
  | cons kv rest ih =>
    rw [List.foldl_cons, show writeStep (st, evs) kv = (st, evs) from by
      simp [writeStep, h kv (List.mem_cons_self kv rest)]]
    exact ih (fun kv' hm => h kv' (List.mem_cons_of_mem kv hm))

/-- The write filter applied to one merged entry, relative to the store as it
was when the write loop started. -/
def writeEvOf (st : Store) (kv : SKey × SVal) : Option Ev :=
  if svalEq ((dictGet st kv.1).getD SVal.null) kv.2 then none
  else some (Ev.write kv.1 kv.2)

theorem writePass_events_aux (merged : List (SKey × SVal)) (st : Store)
    (evs : List Ev) (h : (keysOf merged).Nodup) :
    (merged.foldl writeStep (st, evs)).2 = evs ++ merged.filterMap (writeEvOf st) := by
  induction merged generalizing st evs with
  | nil => simp
  | cons kv rest ih =>
    have hk : ¬kv.1 ∈ keysOf rest := by
      have := h
      rw [show keysOf (kv :: rest) = kv.1 :: keysOf rest from rfl] at this
      exact (List.nodup_cons.mp this).1
    have hrest : (keysOf rest).Nodup := by
      have := h
      rw [show keysOf (kv :: rest) = kv.1 :: keysOf rest from rfl] at this
      exact (List.nodup_cons.mp this).2
    rw [List.foldl_cons]
    by_cases hc : svalEq ((dictGet st kv.1).getD SVal.null) kv.2 = true
    · rw [show writeStep (st, evs) kv = (st, evs) from by simp [writeStep, hc]]
      rw [ih st evs hrest]
      simp [List.filterMap_cons, writeEvOf, hc]
    · rw [show writeStep (st, evs) kv =
        (dictSet st kv.1 kv.2, evs ++ [Ev.write kv.1 kv.2]) from by
          simp [writeStep, hc]]
      rw [ih _ _ hrest]
      have hcongr : rest.filterMap (writeEvOf (dictSet st kv.1 kv.2)) =
          rest.filterMap (writeEvOf st) := by
        refine List.filterMap_congr (fun kv' hm => ?_)
        have hne : ¬kv'.1 = kv.1 := fun hce => by
          exact hk (hce ▸ List.mem_map_of_mem Prod.fst hm)
        simp [writeEvOf, dictGet_dictSet, hne]
      rw [hcongr]
      simp [List.filterMap_cons, writeEvOf, hc]

theorem writePass_events (st : Store) (merged : List (SKey × SVal))
    (h : (keysOf merged).Nodup) :
    (writePass st merged).2 = merged.filterMap (writeEvOf st) := by
  rw [writePass, writePass_events_aux merged st [] h]
  rfl

/-- C2.  When the live settings already equal the merged result of all
applicable keys, reconciliation performs zero merged-key writes: the only
write left in the trace is the unconditional sentinel write of
`platform_settings_was_here` (claim C10) and the data store changes only at
that sentinel key.  Conversely, the write loop emits a write for a merged
key only when its current live value differs from the merged value. -/
theorem C2_write_skipping :
    (∀ (ctx : Ctx) (st : SettingsState) (first : Bool),
        (∀ kv ∈ mergedOf ctx st.data,
            svalEq ((dictGet st.data kv.1).getD SVal.null) kv.2 = true) →
        (checkSettings ctx st first).2.filter isWriteEv =
            [Ev.write wasHereKey (SVal.bool true)]
          ∧ (checkSettings ctx st first).1.data =
              dictSet st.data wasHereKey (SVal.bool true))
    ∧ (∀ (ctx : Ctx) (st : Store) (k : SKey) (v : SVal),
        Ev.write k v ∈ (writePass st (mergedOf ctx st)).2 →
        svalEq ((dictGet st k).getD SVal.null) v = false) := by
  constructor
  · intro ctx st first h
    have hwp : writePass st.data (mergedOf ctx st.data) = (st.data, []) :=
      writePass_skip_aux _ _ _ h
    constructor
    · simp only [checkSettings, hwp]
      by_cases hf : computeFirst st.data first = true <;>
        simp [hf, isWriteEv, List.filter_append]
    · simp only [checkSettings, hwp]
  · intro ctx st k v hm
    rw [writePass_events st (mergedOf ctx st)
      (nodup_keysOf_mergeKeys st ((settingsKeys st).map (substKey ctx)))] at hm
    rcases List.mem_filterMap.mp hm with ⟨kv, hkv, heq⟩
    by_cases hc : svalEq ((dictGet st kv.1).getD SVal.null) kv.2 = true
    · rw [writeEvOf, if_pos hc] at heq
      exact absurd heq (by simp)
    · rw [writeEvOf, if_neg hc] at heq
      obtain ⟨hk, hv⟩ := Ev.write.inj (Option.some.inj heq)
      rw [← hk, ← hv]
      simpa using hc

/-- A store whose live values already equal the merge of the applicable
keys. -/
def sampleLive : Store :=
  sampleStore ++ [("x".data, SVal.int 3), ("y".data, SVal.int 2)]

/-- C2, witnessed.  On a store whose live values already equal the merged
result, the trace's only write is the sentinel and the only data change is
the sentinel key; and on a store where a merged key is unset, the emitted
write is for a differing value. -/
theorem checkSettings_trace (ctx : Ctx) (st : SettingsState) (first : Bool) :
    (checkSettings ctx st first).2 =
      (if computeFirst st.data first then [] else [Ev.clearListener psName]) ++
        (writePass st.data (mergedOf ctx st.data)).2 ++
        [Ev.write wasHereKey (SVal.bool true),
          Ev.addListener psName (Listener.deferCheckSettings 0)] := by
  simp only [checkSettings]
  cases computeFirst st.data first <;> rfl

theorem checkSettings_state (ctx : Ctx) (st : SettingsState) (first : Bool) :
    (checkSettings ctx st first).1 =
      ⟨dictSet (writePass st.data (mergedOf ctx st.data)).1 wasHereKey
          (SVal.bool true),
        dictSet (if computeFirst st.data first then st.listeners
            else clearL st.listeners psName)
          psName (Listener.deferCheckSettings 0)⟩ := by
  simp only [checkSettings]
  cases computeFirst st.data first <;> rfl

theorem hasListener_clearL (ls : List (SKey × Listener)) (n : SKey) :
    hasListener (clearL ls n) n = false := by
  induction ls with
  | nil => rfl
  | cons p rest ih =>
    by_cases h : p.1 = n
    · simpa [clearL, h] using ih
    · have hn : ¬n = p.1 := fun hc => h hc.symm
      simpa [clearL, hasListener, dictGet, h, hn] using ih

theorem writesSafe_append (ls : List (SKey × Listener)) (a b : List Ev) :
    writesSafe ls (a ++ b) = (writesSafe ls a && writesSafe (replayL ls a) b) := by
  induction a generalizing ls with
  | nil => simp [writesSafe, replayL]
  | cons e rest ih =>
    rw [List.cons_append]
    rw [show writesSafe ls (e :: (rest ++ b)) =
      ((match e with
        | Ev.write _ _ => !hasListener ls psName
        | _ => true) && writesSafe (applyEv ls e) (rest ++ b)) from rfl]
    rw [ih (applyEv ls e)]
    rw [show writesSafe ls (e :: rest) =
      ((match e with
        | Ev.write _ _ => !hasListener ls psName
        | _ => true) && writesSafe (applyEv ls e) rest) from rfl]
    rw [show replayL ls (e :: rest) = replayL (applyEv ls e) rest from rfl]
    rw [Bool.and_assoc]

theorem replayL_writes (ls : List (SKey × Listener)) (evs : List Ev)
    (h : ∀ e ∈ evs, isWriteEv e = true) : replayL ls evs = ls := by
  induction evs with
  | nil => rfl
  | cons e rest ih =>
    have he := h e (List.mem_cons_self e rest)
    cases e with
    | write k v =>
      show replayL (applyEv ls (Ev.write k v)) rest = ls
      exact ih (fun e hm => h e (List.mem_cons_of_mem _ hm))
    | clearListener n => simp [isWriteEv] at he
    | addListener n l => simp [isWriteEv] at he

theorem writesSafe_writes (ls : List (SKey × Listener)) (evs : List Ev)
    (h : ∀ e ∈ evs, isWriteEv e = true)
    (hl : hasListener ls psName = false) : writesSafe ls evs = true := by
  induction evs with
  | nil => rfl
  | cons e rest ih =>
    have he := h e (List.mem_cons_self e rest)
    cases e with
    | write k v =>
      simp only [writesSafe, applyEv, hl, Bool.not_false, Bool.true_and]
      exact ih (fun e hm => h e (List.mem_cons_of_mem _ hm))
    | clearListener n => simp [isWriteEv] at he
    | addListener n l => simp [isWriteEv] at he

theorem writePass_all_writes_aux (merged : List (SKey × SVal)) (st : Store)
    (evs : List Ev) (h : ∀ e ∈ evs, isWriteEv e = true) :
    ∀ e ∈ (merged.foldl writeStep (st, evs)).2, isWriteEv e = true := by
  induction merged generalizing st evs with
  | nil => exact h
  | cons kv rest ih =>
    rw [List.foldl_cons]
    by_cases hc : svalEq ((dictGet st kv.1).getD SVal.null) kv.2 = true
    · rw [show writeStep (st, evs) kv = (st, evs) from by simp [writeStep, hc]]
      exact ih st evs h
    · rw [show writeStep (st, evs) kv =
        (dictSet st kv.1 kv.2, evs ++ [Ev.write kv.1 kv.2]) from by
          simp [writeStep, hc]]
      refine ih _ _ (fun e hm => ?_)
      rcases List.mem_append.mp hm with hm1 | hm2
      · exact h e hm1
      · rw [List.mem_singleton.mp hm2]
        rfl

theorem writePass_all_writes (st : Store) (merged : List (SKey × SVal)) :
    ∀ e ∈ (writePass st merged).2, isWriteEv e = true :=
  writePass_all_writes_aux merged st [] (by simp)

theorem writesSafe_tail (ls : List (SKey × Listener)) (W : List Ev)
    (hW : ∀ e ∈ W, isWriteEv e = true)
    (hl : hasListener ls psName = false) (l0 : Listener) :
    writesSafe ls (W ++ [Ev.write wasHereKey (SVal.bool true),
      Ev.addListener psName l0]) = true := by
  rw [writesSafe_append, replayL_writes ls W hW, writesSafe_writes ls W hW hl]
  simp [writesSafe, applyEv, hl]

/-- C3.  Provided the component's own listener was not already attached when
the run is a first run, every write of the run happens while no
`platform_settings` listener is attached (the run detaches its own listener
first, or none was attached yet); the trace ends by attaching the listener
that defers `check_settings` through the host's zero-delay deferred-callback
facility, and no other event of the trace attaches any listener — so no
write can synchronously re-invoke reconciliation, and any re-trigger runs on
a later event-loop turn. -/
theorem C3_reentrancy :
    ∀ (ctx : Ctx) (st : SettingsState) (first : Bool),
      (computeFirst st.data first = true →
        hasListener st.listeners psName = false) →
      writesSafe st.listeners (checkSettings ctx st first).2 = true
      ∧ (checkSettings ctx st first).2.getLast? =
          some (Ev.addListener psName (Listener.deferCheckSettings 0))
      ∧ (checkSettings ctx st first).2.dropLast.all (fun e => !isAddEv e) = true := by
  intro ctx st first h
  have hW := writePass_all_writes st.data (mergedOf ctx st.data)
  refine ⟨?_, ?_, ?_⟩
  · rw [checkSettings_trace]
    cases hf : computeFirst st.data first
    · show writesSafe st.listeners ([Ev.clearListener psName] ++
        ((writePass st.data (mergedOf ctx st.data)).2 ++
          [Ev.write wasHereKey (SVal.bool true),
            Ev.addListener psName (Listener.deferCheckSettings 0)])) = true
      rw [writesSafe_append,
        show replayL st.listeners [Ev.clearListener psName] =
          clearL st.listeners psName from rfl,
        writesSafe_tail _ _ hW (hasListener_clearL st.listeners psName) _]
      rfl
    · show writesSafe st.listeners
        ((writePass st.data (mergedOf ctx st.data)).2 ++
          [Ev.write wasHereKey (SVal.bool true),
            Ev.addListener psName (Listener.deferCheckSettings 0)]) = true
      exact writesSafe_tail _ _ hW (h hf) _
  · rw [checkSettings_trace]
    rw [show (if computeFirst st.data first then ([] : List Ev)
          else [Ev.clearListener psName]) ++
        (writePass st.data (mergedOf ctx st.data)).2 ++
          [Ev.write wasHereKey (SVal.bool true),
            Ev.addListener psName (Listener.deferCheckSettings 0)] =
        ((if computeFirst st.data first then ([] : List Ev)
            else [Ev.clearListener psName]) ++
          (writePass st.data (mergedOf ctx st.data)).2 ++
          [Ev.write wasHereKey (SVal.bool true)]) ++
          [Ev.addListener psName (Listener.deferCheckSettings 0)] from by simp]
    exact List.getLast?_concat _
  · rw [checkSettings_trace]
    rw [show (if computeFirst st.data first then ([] : List Ev)
          else [Ev.clearListener psName]) ++
        (writePass st.data (mergedOf ctx st.data)).2 ++
          [Ev.write wasHereKey (SVal.bool true),
            Ev.addListener psName (Listener.deferCheckSettings 0)] =
        ((if computeFirst st.data first then ([] : List Ev)
            else [Ev.clearListener psName]) ++
          (writePass st.data (mergedOf ctx st.data)).2 ++
          [Ev.write wasHereKey (SVal.bool true)]) ++
          [Ev.addListener psName (Listener.deferCheckSettings 0)] from by simp]
    rw [List.dropLast_concat, List.all_append, List.all_append]
    have hWa : ((writePass st.data (mergedOf ctx st.data)).2.all
        fun e => !isAddEv e) = true := by
      rw [List.all_eq_true]
      intro e hm
      have hwr := hW e hm
      cases e with
      | write k v => rfl
      | clearListener n => rfl
      | addListener n l => simp [isWriteEv] at hwr
    rw [hWa]
    cases computeFirst st.data first <;> rfl

/-- C3, witnessed at a first run on an empty view with two stored
dictionaries: the trace is reentrancy-safe, ends with the deferring
listener attachment, and attaches no other listener. -/
theorem C3_reentrancy_witness :
    writesSafe [] (checkSettings sampleCtx ⟨sampleStore, []⟩ true).2 = true
    ∧ (checkSettings sampleCtx ⟨sampleStore, []⟩ true).2.getLast? =
        some (Ev.addListener psName (Listener.deferCheckSettings 0))
    ∧ (checkSettings sampleCtx ⟨sampleStore, []⟩ true).2.dropLast.all
        (fun e => !isAddEv e) = true :=
  C3_reentrancy sampleCtx ⟨sampleStore, []⟩ true (fun _ => rfl)

/-- C10.  Every run of `check_settings` ends by writing the sentinel
`platform_settings_was_here` to `True` and attaching the fresh
`platform_settings` change listener: the trace unconditionally ends with
these two mutations, the resulting store holds `True` under the sentinel
key, and the resulting listener set holds the deferring listener. -/
theorem C10_unconditional_tail :
    ∀ (ctx : Ctx) (st : SettingsState) (first : Bool),
      (∃ pre, (checkSettings ctx st first).2 =
          pre ++ [Ev.write wasHereKey (SVal.bool true),
            Ev.addListener psName (Listener.deferCheckSettings 0)])
      ∧ dictGet (checkSettings ctx st first).1.data wasHereKey =
          some (SVal.bool true)
      ∧ dictGet (checkSettings ctx st first).1.listeners psName =
          some (Listener.deferCheckSettings 0) := by
  intro ctx st first
  refine ⟨⟨(if computeFirst st.data first then [] else [Ev.clearListener psName])
      ++ (writePass st.data (mergedOf ctx st.data)).2, ?_⟩, ?_, ?_⟩
  · rw [checkSettings_trace, List.append_assoc]
  · rw [checkSettings_state]
    exact (dictGet_dictSet _ _ _ _).trans (if_pos rfl)
  · rw [checkSettings_state]
    exact (dictGet_dictSet _ _ _ _).trans (if_pos rfl)

theorem C2_write_skipping_witness :
    ((checkSettings sampleCtx ⟨sampleLive, []⟩ true).2.filter isWriteEv =
        [Ev.write wasHereKey (SVal.bool true)]
      ∧ (checkSettings sampleCtx ⟨sampleLive, []⟩ true).1.data =
          dictSet sampleLive wasHereKey (SVal.bool true))
    ∧ svalEq ((dictGet sampleStore "x".data).getD SVal.null) (SVal.int 3) = false :=
  ⟨C2_write_skipping.1 sampleCtx ⟨sampleLive, []⟩ true (by decide),
    C2_write_skipping.2 sampleCtx sampleStore "x".data (SVal.int 3)
      (List.mem_cons_self _ _)⟩


/-- C4.  The rendered display string prints components in strictly descending
significance and stops at the first zero or absent component, the label only
after a non-zero patch and prefixed with a dot: an absent or zero major
renders empty; a positive major with zero/absent minor renders just the
major; and so on through minor, patch and label; parsing then rendering
gives "1" for "1.0.3", "2" for "2.0.5", "2.3" for "2.3.0" and "2.3.4.beta"
for "2.3.4.beta". -/
theorem C4_render_truncation :
    (∀ v : Version, (v.major = none ∨ v.major = some 0) → v.full = [])
    ∧ (∀ (v : Version) (M : Nat), v.major = some M → 0 < M →
        (v.minor = none ∨ v.minor = some 0) → v.full = natToStr M)
    ∧ (∀ (v : Version) (M m : Nat), v.major = some M → 0 < M →
        v.minor = some m → 0 < m → (v.patch = none ∨ v.patch = some 0) →
        v.full = natToStr M ++ dotChar :: natToStr m)
    ∧ (∀ (v : Version) (M m p : Nat), v.major = some M → 0 < M →
        v.minor = some m → 0 < m → v.patch = some p → 0 < p →
        labelTruthy v.label = false →
        v.full = natToStr M ++ dotChar :: natToStr m ++ dotChar :: natToStr p)
    ∧ (∀ (v : Version) (M m p : Nat) (l : SKey), v.major = some M → 0 < M →
        v.minor = some m → 0 < m → v.patch = some p → 0 < p →
        v.label = some l → l ≠ [] →
        v.full = natToStr M ++ dotChar :: natToStr m ++ dotChar :: natToStr p
          ++ dotChar :: l)
    ∧ renderParsed "1.0.3".data = some "1".data
    ∧ renderParsed "2.0.5".data = some "2".data
    ∧ renderParsed "2.3.0".data = some "2.3".data
    ∧ renderParsed "2.3.4.beta".data = some "2.3.4.beta".data := by
  refine ⟨?_, ?_, ?_, ?_, ?_, by decide, by decide, by decide, by decide⟩
  · rintro v (h | h) <;> simp [Version.full, h]
  · rintro v M hM hpos (h | h) <;> simp [Version.full, hM, hpos, h]
  · rintro v M m hM hposM hm hposm (h | h) <;>
      simp [Version.full, hM, hposM, hm, hposm, h]
  · rintro v M m p hM hposM hm hposm hp hposp hlab
    rcases hl : v.label with _ | l
    · simp [Version.full, hM, hposM, hm, hposm, hp, hposp, hl]
    · rw [hl] at hlab
      have hleq : l = [] := by simpa [labelTruthy] using hlab
      simp [Version.full, hM, hposM, hm, hposm, hp, hposp, hl, hleq]
  · rintro v M m p l hM hposM hm hposm hp hposp hl hlne
    simp [Version.full, hM, hposM, hm, hposm, hp, hposp, hl, hlne]

/-- C4, witnessed: an all-absent version renders empty, and a full version
with a label renders all four components dot-separated. -/
theorem C4_render_truncation_witness :
    Version.full ⟨none, none, none, none⟩ = []
    ∧ Version.full ⟨some 2, some 3, some 4, some "beta".data⟩ =
        "2.3.4.beta".data :=
  ⟨C4_render_truncation.1 ⟨none, none, none, none⟩ (Or.inl rfl),
    (C4_render_truncation.2.2.2.2.1 ⟨some 2, some 3, some 4, some "beta".data⟩
        2 3 4 "beta".data rfl (by decide) rfl (by decide) rfl (by decide) rfl
        (by decide)).trans (by decide)⟩

/-- C5.  When the input text contains no digit at all, the version-pattern
search finds no match, so `_parse` raises the dedicated `VersionError` and
returns the component fields exactly as they were (no field is assigned); in
particular this happens for the input "abc". -/
theorem C5_no_digit_error :
    (∀ (v : Version) (text : List Char),
        (∀ c ∈ text, c.isDigit = false) →
        versionParseMut v text = (v, some (VersionError.unrecognized text)))
    ∧ versionParseMut Version.empty "abc".data =
        (Version.empty, some (VersionError.unrecognized "abc".data)) := by
  constructor
  · intro v text h
    have hdrop : text.dropWhile (fun c => !c.isDigit) = [] := by
      rw [List.dropWhile_eq_nil_iff]
      intro c hc
      simp [h c hc]
    have hsearch : versionSearch text = none := by
      show (match text.dropWhile (fun c => !c.isDigit) with
        | [] => none
        | c :: rest => some (versionFields (c :: rest))) = none
      rw [hdrop]
    rw [versionParseMut, hsearch]
  · rfl

/-- C5, witnessed on the digitless input "abc". -/
theorem C5_no_digit_error_witness :
    versionParseMut Version.empty "abc".data =
      (Version.empty, some (VersionError.unrecognized "abc".data)) :=
  C5_no_digit_error.1 Version.empty "abc".data (by decide)

/-- C9.  The version pattern is searched for, not anchored: any input
containing a digit anywhere parses without error, and the major component is
the integer value of the maximal digit run starting at the first digit; in
particular "abc1.2" parses with major 1 and minor 2. -/
theorem C9_search_not_anchored :
    (∀ text : List Char, (∃ c ∈ text, c.isDigit = true) →
        versionSearch text =
            some (versionFields (text.dropWhile (fun c => !c.isDigit)))
          ∧ (versionFields (text.dropWhile (fun c => !c.isDigit))).major =
              digitsToNat
                ((text.dropWhile (fun c => !c.isDigit)).takeWhile Char.isDigit)
          ∧ ∀ v : Version, (versionParseMut v text).2 = none)
    ∧ versionSearch "abc1.2".data = some ⟨1, 2, 0, none⟩ := by
  constructor
  · intro text h
    have hne : text.dropWhile (fun c => !c.isDigit) ≠ [] := by
      intro hnil
      rw [List.dropWhile_eq_nil_iff] at hnil
      rcases h with ⟨c, hc, hd⟩
      have hnc := hnil c hc
      simp [hd] at hnc
    rcases hrest : text.dropWhile (fun c => !c.isDigit) with _ | ⟨c, rest⟩
    · exact absurd hrest hne
    · have hsearch : versionSearch text = some (versionFields (c :: rest)) := by
        show (match text.dropWhile (fun c => !c.isDigit) with
          | [] => none
          | c :: rest => some (versionFields (c :: rest))) = _
        rw [hrest]
      rw [hrest]
      refine ⟨hsearch, rfl, fun v => ?_⟩
      rw [versionParseMut, hsearch]
  · rfl

/-- C9, witnessed on "abc1.2": parsing succeeds, the major group is the
first digit run, and no error is raised. -/
theorem C9_search_not_anchored_witness :
    versionSearch "abc1.2".data =
        some (versionFields ("abc1.2".data.dropWhile (fun c => !c.isDigit)))
      ∧ (versionFields ("abc1.2".data.dropWhile (fun c => !c.isDigit))).major =
          digitsToNat
            (("abc1.2".data.dropWhile (fun c => !c.isDigit)).takeWhile
              Char.isDigit)
      ∧ ∀ v : Version, (versionParseMut v "abc1.2".data).2 = none :=
  C9_search_not_anchored.1 "abc1.2".data ⟨'1', by decide, by decide⟩

/-- C6.  When the parsed os-release data has no `ID` entry or its value is
exactly "generic", the identifier is taken from the `ID_LIKE` entry; in
particular the content "ID=generic", "ID_LIKE=debian" resolves the
identifier to "debian". -/
theorem C6_generic_fallback :
    (∀ d : List (SKey × SKey),
        (dictGet d "ID".data = none ∨ dictGet d "ID".data = some "generic".data) →
        resolveId d = dictGet d "ID_LIKE".data)
    ∧ parseOsRelease sampleInfo
        (some ["ID=generic".data, "ID_LIKE=debian".data]) =
      ({ sampleInfo with id := some "debian".data }, none) := by
  constructor
  · intro d h
    rcases h with h | h <;> simp [resolveId, h]
  · rfl

/-- C6, witnessed on the parsed content "ID=generic", "ID_LIKE=debian". -/
theorem C6_generic_fallback_witness :
    resolveId (buildOsReleaseData ["ID=generic".data, "ID_LIKE=debian".data]) =
      dictGet (buildOsReleaseData ["ID=generic".data, "ID_LIKE=debian".data])
        "ID_LIKE".data :=
  C6_generic_fallback.1 _ (Or.inr (by decide))

/-- C7.  The os-release content with `ID=ubuntu` and a double-quoted
`VERSION_ID` of "20.04" yields identifier "ubuntu" and a version parsed as
major 20, minor 4 (the quoted value is stripped and the numeric leading zero
is not preserved), which renders as "20.4". -/
theorem C7_ubuntu_2004 :
    ∀ info : OsInfo,
      parseOsRelease info
          (some ["ID=ubuntu".data,
            "VERSION_ID=".data ++ [dquoteChar] ++ "20.04".data ++ [dquoteChar]]) =
        ({ info with
            id := some "ubuntu".data,
            version := ⟨some 20, some 4, some 0, none⟩ }, none)
      ∧ Version.full ⟨some 20, some 4, some 0, none⟩ = "20.4".data := by
  intro info
  exact ⟨rfl, by decide⟩

/-- C8.  When opening or reading the os-release file raises an I/O error,
`_parse_os_release` absorbs it: no error reaches the caller and the whole
snapshot — identifier, version and every other field — is exactly as it was
before the call. -/
theorem C8_io_error_absorbed :
    ∀ info : OsInfo, parseOsRelease info none = (info, none) := by
  intro info
  rfl

end PlatformSettings
